import Mathlib

/-!
# Verification of the SIMD introduction program (`main.cpp`)

Shallow embedding of the tutorial program `IntroToSIMDOperations/main.cpp`.

The program works on 32-bit floats through SSE intrinsics.  We model:

* an SSE register `__m128` as a structure `M128 α` of four lanes;
* the intrinsics `_mm_load_ps`, `_mm_load1_ps`, `_mm_add_ps`, `_mm_mul_ps`,
  `_mm_store_ps` as total Lean functions; loads and stores take a `List α`
  (the allocated buffer) and an index and return `Option` results, so an
  out-of-bounds access is the `none` branch;
* IEEE-754 binary32 arithmetic exactly, as rational numbers together with
  round-to-nearest-even at 24 significand bits (`fround`); the values
  occurring in this program all lie well inside the normal range, so
  overflow and subnormal rounding never arise for them;
* the three computation phases of `main`: the element-wise-add warm-up loop
  (lines 57-98), the array-of-structures dot-product demonstration
  (lines 117-139), and the structure-of-arrays batched dot-product kernel
  (lines 156-217).

The batched kernel is embedded generically over the lane operations
`add mul : α → α → α`, so that theorems quantifying over these operations
pin down the exact order and association of the floating-point operations
the code performs; instantiating `add := fadd, mul := fmul` gives the real
binary32 run.
-/

set_option maxRecDepth 10000

namespace SIMDIntro

/-- The SSE `__m128` register: four packed single-precision lanes. -/
structure M128 (α : Type) where
  l0 : α
  l1 : α
  l2 : α
  l3 : α
deriving DecidableEq

/-- Lane projection: lane `t` of a register (`t` taken mod 4 like the
hardware lane index; only `t < 4` is ever used). -/
def M128.lane (v : M128 α) (t : ℕ) : α :=
  if t % 4 = 0 then v.l0
  else if t % 4 = 1 then v.l1
  else if t % 4 = 2 then v.l2
  else v.l3

/-- Model of `_mm_load_ps(p + i)`: aligned load of four consecutive floats starting at
index `i` of buffer `l`; `none` when any of the four reads is out of bounds. -/
def load_ps (l : List α) (i : ℕ) : Option (M128 α) :=
  match l[i]?, l[i+1]?, l[i+2]?, l[i+3]? with
  | some a, some b, some c, some d => some ⟨a, b, c, d⟩
  | _, _, _, _ => none

/-- Model of `_mm_load1_ps(p + i)`: load one float and broadcast it into all four
lanes; `none` when the read is out of bounds. -/
def load1_ps (l : List α) (i : ℕ) : Option (M128 α) :=
  (l[i]?).map fun v => ⟨v, v, v, v⟩

/-- Model of `_mm_add_ps`: lane-wise addition, generic over the scalar addition. -/
def add_ps (add : α → α → α) (a b : M128 α) : M128 α :=
  ⟨add a.l0 b.l0, add a.l1 b.l1, add a.l2 b.l2, add a.l3 b.l3⟩

/-- Model of `_mm_mul_ps`: lane-wise multiplication, generic over the scalar
multiplication. -/
def mul_ps (mul : α → α → α) (a b : M128 α) : M128 α :=
  ⟨mul a.l0 b.l0, mul a.l1 b.l1, mul a.l2 b.l2, mul a.l3 b.l3⟩

/-- Model of `_mm_store_ps(p + i, v)`: aligned store of the four lanes into buffer `l`
at indices `i, i+1, i+2, i+3`; `none` when the store would be out of bounds. -/
def store_ps (l : List α) (i : ℕ) (v : M128 α) : Option (List α) :=
  if i + 4 ≤ l.length then
    some ((((l.set i v.l0).set (i+1) v.l1).set (i+2) v.l2).set (i+3) v.l3)
  else none

/-!
## Exact binary32 arithmetic

A finite binary32 value is an exactly representable rational; an operation
computes the exact rational result and rounds it to nearest, ties to even,
at 24 significand bits.  `fnorm` brings `|q|` to the form `m * 2^e` with
`1 ≤ m < 2` by repeated doubling or halving (fuel-bounded, 300 steps cover
every value this program manipulates by an enormous margin).
-/

/-- Normalisation loop: `fnorm fuel q e` returns `(m, eo)` with
`q * 2^e = m * 2^eo` and `1 ≤ m < 2` (when the fuel suffices and `q > 0`). -/
def fnorm : ℕ → ℚ → ℤ → ℚ × ℤ
  | 0, q, e => (q, e)
  | f+1, q, e =>
    if q < 1 then fnorm f (q * 2) (e - 1)
    else if 2 ≤ q then fnorm f (q / 2) (e + 1)
    else (q, e)

/-- Floor of a rational, computed from its reduced numerator and denominator. -/
def qfloor (x : ℚ) : ℤ := x.num.fdiv (x.den : ℤ)

/-- Round a rational to the nearest integer, ties to even. -/
def rne (x : ℚ) : ℤ :=
  let n := qfloor x
  let r := x - (n : ℚ)
  if r < 1/2 then n
  else if 1/2 < r then n + 1
  else if n % 2 = 0 then n else n + 1

/-- Round a rational to the nearest IEEE-754 binary32 value (normal range,
round to nearest, ties to even, 24 significand bits). -/
def fround (q : ℚ) : ℚ :=
  if q = 0 then 0
  else
    let s : ℚ := if q < 0 then -1 else 1
    let me := fnorm 300 |q| 0
    s * (rne (me.1 * 2 ^ 23) : ℚ) * (2 : ℚ) ^ (me.2 - 23)

/-- binary32 addition: exact sum, then rounding. -/
def fadd (a b : ℚ) : ℚ := fround (a + b)

/-- binary32 multiplication: exact product, then rounding. -/
def fmul (a b : ℚ) : ℚ := fround (a * b)

/-- The binary32 literal `0.1f`: the nearest binary32 value to 1/10. -/
def q01 : ℚ := fround (1/10)

/-!
## The batched structure-of-arrays dot-product kernel (lines 198-217)

```
for (int i = 0; i < 64; i += 4){
    __m128 dx = _mm_mul_ps(x1, _mm_load_ps(x + i));
    __m128 dy = _mm_mul_ps(y1, _mm_load_ps(y + i));
    __m128 dz = _mm_mul_ps(z1, _mm_load_ps(z + i));
    __m128 dw = _mm_mul_ps(w1, _mm_load_ps(w + i));
    dx = _mm_add_ps(dx, dy);
    dz = _mm_add_ps(dz, dw);
    dx = _mm_add_ps(dx, dz);
    _mm_store_ps(dp + i, dx);
}
```

`dotBlocks` is this loop, structurally recursing on the number of remaining
iterations (`b` blocks left, current index `i`); the broadcast registers
`x1 y1 z1 w1` were set up before the loop and are loop parameters, exactly
as in the source.  `dotKernel` is the whole kernel, lines 180-217: the four
`_mm_load1_ps` broadcasts of element 0 followed by the loop; the source
fixes the loop bound to `64`, which we keep as the parameter `n`
(`⌈n/4⌉` iterations, the count the C loop `i = 0; i < n; i += 4` makes).
-/

/-- The body of the batched dot-product loop, lines 198-217, iterated
`b` times starting at index `i`, generic over the lane operations. -/
def dotBlocks (add mul : α → α → α) (x y z w : List α)
    (x1 y1 z1 w1 : M128 α) : List α → ℕ → ℕ → Option (List α)
  | dp, _, 0 => some dp
  | dp, i, b+1 => do
    let ax ← load_ps x i
    let ay ← load_ps y i
    let az ← load_ps z i
    let aw ← load_ps w i
    let dx := mul_ps mul x1 ax
    let dy := mul_ps mul y1 ay
    let dz := mul_ps mul z1 az
    let dw := mul_ps mul w1 aw
    let dx2 := add_ps add dx dy
    let dz2 := add_ps add dz dw
    let dx3 := add_ps add dx2 dz2
    let dp2 ← store_ps dp i dx3
    dotBlocks add mul x y z w x1 y1 z1 w1 dp2 (i+4) b

/-- The batched dot-product kernel, lines 180-217: broadcast element 0 of
each coordinate array once (`_mm_load1_ps`), then run the loop over
`⌈n/4⌉` blocks (the source has `n = 64`). -/
def dotKernel (add mul : α → α → α) (n : ℕ) (x y z w dp : List α) :
    Option (List α) := do
  let x1 ← load1_ps x 0
  let y1 ← load1_ps y 0
  let z1 ← load1_ps z 0
  let w1 ← load1_ps w 0
  dotBlocks add mul x y z w x1 y1 z1 w1 dp 0 ((n + 3) / 4)

/-!
## The program's concrete data

Lines 156-176: five 64-float buffers; `x[0] = y[0] = z[0] = w[0] = 1.0f`
and every other element `0.1f`.  `dp` is allocated but not initialised;
we take a zero-filled buffer as its model (and prove separately that the
kernel output on `[0, n)` does not depend on the initial contents).
-/

/-- The program's `x` array: `x[0] = 1.0f`, `x[i] = 0.1f` for `1 ≤ i < 64`. -/
def progX : List ℚ := 1 :: List.replicate 63 q01

/-- The program's `y` array (same values as `x`). -/
def progY : List ℚ := 1 :: List.replicate 63 q01

/-- The program's `z` array (same values as `x`). -/
def progZ : List ℚ := 1 :: List.replicate 63 q01

/-- The program's `w` array (same values as `x`). -/
def progW : List ℚ := 1 :: List.replicate 63 q01

/-- Model of the freshly allocated 64-float `dp` buffer. -/
def dp0 : List ℚ := List.replicate 64 0

/-- The result buffer of the program's batched dot-product run
(`some` contents, defaulting to `[]`, which `progDot_isSome` rules out). -/
def progDot : List ℚ :=
  (dotKernel fadd fmul 64 progX progY progZ progW dp0).getD []

/-!
## The warm-up element-wise add (lines 57-98)

`foo[i] = i`, `bar[i] = i * 0.1f` for `i < 8`; then for `i = 0, 4`:
load four from `foo`, four from `bar`, `_mm_add_ps`, store into `results`.
-/

/-- Array foo: `foo[i] = i` (the int `i` converted to float, exact for `i < 8`). -/
def foo : List ℚ := (List.range 8).map fun i => (i : ℚ)

/-- Array bar: `bar[i] = i * 0.1f` (binary32 multiplication). -/
def bar : List ℚ := (List.range 8).map fun i => fmul (i : ℚ) q01

/-- The warm-up loop, lines 69-98: `b` iterations from index `i`,
each loading four floats from `f` and `g`, adding lane-wise in binary32
and storing into the result buffer. -/
def warmLoop (f g : List ℚ) : List ℚ → ℕ → ℕ → Option (List ℚ)
  | res, _, 0 => some res
  | res, i, b+1 => do
    let a ← load_ps f i
    let c ← load_ps g i
    let s := add_ps fadd a c
    let res2 ← store_ps res i s
    warmLoop f g res2 (i+4) b

/-- The warm-up `results` buffer after the loop (8 floats, 2 blocks). -/
def warmResults : Option (List ℚ) := warmLoop foo bar (List.replicate 8 0) 0 2

/-- The warm-up results, defaulting to `[]` (ruled out by `warmResults_eq`). -/
def warmRes : List ℚ := warmResults.getD []

/-!
## The array-of-structures dot-product demonstration (lines 117-139)

`vectors = (1,1,1,1, 2,2,2,2)`; load both vec4s, `_mm_mul_ps`, store into
the (reused) warm-up `results` buffer, then sum the four lanes with scalar
float additions parenthesised `(r0 + r1) + (r2 + r3)`.
-/

/-- The `vectors` buffer, lines 117-126. -/
def vectors : List ℚ := [1, 1, 1, 1, 2, 2, 2, 2]

/-- The AoS dot-product demonstration, lines 128-136: returns the scalar
`product`; `none` if any access were out of bounds. -/
def aosProduct : Option ℚ := do
  let res ← warmResults
  let a ← load_ps vectors 0
  let b ← load_ps vectors 4
  let c := mul_ps fmul a b
  let res2 ← store_ps res 0 c
  let r0 ← res2[0]?
  let r1 ← res2[1]?
  let r2 ← res2[2]?
  let r3 ← res2[3]?
  pure (fadd (fadd r0 r1) (fadd r2 r3))

/-!
## Lemmas about the embedded operations
-/

theorem getElem?_drop_add (l : List α) (n m : ℕ) : (l.drop n)[m]? = l[n + m]? := by
  induction n generalizing l with
  | zero => simp
  | succ k ih =>
    cases l with
    | nil => simp
    | cons a t => simp [Nat.succ_add, ih]

theorem M128.lane_broadcast (v : α) (t : ℕ) : (M128.mk v v v v).lane t = v := by
  unfold M128.lane
  split_ifs <;> rfl

theorem M128.lane_congr (v : M128 α) {s t : ℕ} (h : s % 4 = t % 4) :
    v.lane s = v.lane t := by
  unfold M128.lane
  rw [h]

/-- A four-wide aligned load inside the buffer succeeds and returns the four
elements at offsets `i, i+1, i+2, i+3`. -/
theorem load_ps_some {l : List α} {i : ℕ} (h : i + 4 ≤ l.length) :
    ∃ v : M128 α, load_ps l i = some v ∧
      l[i]? = some v.l0 ∧ l[i+1]? = some v.l1 ∧ l[i+2]? = some v.l2 ∧
      l[i+3]? = some v.l3 := by
  have h0 : i < l.length := by omega
  have h1 : i + 1 < l.length := by omega
  have h2 : i + 2 < l.length := by omega
  have h3 : i + 3 < l.length := by omega
  refine ⟨⟨l.get ⟨i, h0⟩, l.get ⟨i+1, h1⟩, l.get ⟨i+2, h2⟩, l.get ⟨i+3, h3⟩⟩,
    ?_, ?_, ?_, ?_, ?_⟩ <;>
    simp [load_ps, List.getElem?_eq_getElem, h0, h1, h2, h3]

/-- A four-wide aligned store inside the buffer succeeds; it writes the four
lanes at offsets `i, …, i+3`, preserves the length and leaves every other
index unchanged. -/
theorem store_ps_some {l : List α} {i : ℕ} (v : M128 α) (h : i + 4 ≤ l.length) :
    ∃ r, store_ps l i v = some r ∧ r.length = l.length ∧
      r[i]? = some v.l0 ∧ r[i+1]? = some v.l1 ∧ r[i+2]? = some v.l2 ∧
      r[i+3]? = some v.l3 ∧
      ∀ j, j < i ∨ i + 4 ≤ j → r[j]? = l[j]? := by
  refine ⟨(((l.set i v.l0).set (i+1) v.l1).set (i+2) v.l2).set (i+3) v.l3,
    ?_, by simp, ?_, ?_, ?_, ?_, ?_⟩
  · unfold store_ps
    rw [if_pos h]
  · rw [List.getElem?_set_ne (by omega), List.getElem?_set_ne (by omega),
      List.getElem?_set_ne (by omega),
      List.getElem?_set_self (show i < l.length by omega)]
  · rw [List.getElem?_set_ne (by omega), List.getElem?_set_ne (by omega),
      List.getElem?_set_self (show i+1 < (l.set i v.l0).length by simp only [List.length_set]; omega)]
  · rw [List.getElem?_set_ne (by omega),
      List.getElem?_set_self (show i+2 < ((l.set i v.l0).set (i+1) v.l1).length by simp only [List.length_set]; omega)]
  · rw [List.getElem?_set_self
      (show i+3 < (((l.set i v.l0).set (i+1) v.l1).set (i+2) v.l2).length by simp only [List.length_set]; omega)]
  · intro j hj
    rw [List.getElem?_set_ne (by omega), List.getElem?_set_ne (by omega),
      List.getElem?_set_ne (by omega), List.getElem?_set_ne (by omega)]

/-- Full characterisation of the batched dot-product loop `dotBlocks`: when
every access of the `b` blocks starting at index `i` is in bounds, the loop
succeeds, preserves the buffer length, leaves every index outside
`[i, i+4b)` untouched, and stores at each covered index `j` the value
`(x1ⱼ*xⱼ ⊕ y1ⱼ*yⱼ) ⊕ (z1ⱼ*zⱼ ⊕ w1ⱼ*wⱼ)` — the pairwise-tree reduction of
the four per-axis products, in exactly the association the source code
performs, with `x1ⱼ` the lane of the broadcast register the index falls
into. -/
theorem dotBlocks_spec {α : Type} (add mul : α → α → α) (x y z w : List α)
    (x1 y1 z1 w1 : M128 α) :
    ∀ (b i : ℕ) (dp : List α),
      i + 4 * b ≤ x.length → i + 4 * b ≤ y.length → i + 4 * b ≤ z.length →
      i + 4 * b ≤ w.length → i + 4 * b ≤ dp.length →
      ∃ r, dotBlocks add mul x y z w x1 y1 z1 w1 dp i b = some r ∧
        r.length = dp.length ∧
        (∀ j, j < i ∨ i + 4 * b ≤ j → r[j]? = dp[j]?) ∧
        (∀ j, i ≤ j → j < i + 4 * b →
          ∀ xv yv zv wv, x[j]? = some xv → y[j]? = some yv → z[j]? = some zv →
            w[j]? = some wv →
            r[j]? = some (add (add (mul (x1.lane (j - i)) xv) (mul (y1.lane (j - i)) yv))
              (add (mul (z1.lane (j - i)) zv) (mul (w1.lane (j - i)) wv)))) := by
  intro b
  induction b with
  | zero =>
    intro i dp _ _ _ _ _
    exact ⟨dp, rfl, rfl, fun j _ => rfl, fun j h1 h2 => absurd h2 (by omega)⟩
  | succ b ih =>
    intro i dp hx hy hz hw hdp
    obtain ⟨xa, hxa, hxa0, hxa1, hxa2, hxa3⟩ := load_ps_some (l := x) (i := i) (by omega)
    obtain ⟨ya, hya, hya0, hya1, hya2, hya3⟩ := load_ps_some (l := y) (i := i) (by omega)
    obtain ⟨za, hza, hza0, hza1, hza2, hza3⟩ := load_ps_some (l := z) (i := i) (by omega)
    obtain ⟨wa, hwa, hwa0, hwa1, hwa2, hwa3⟩ := load_ps_some (l := w) (i := i) (by omega)
    obtain ⟨dp2, hdp2, hlen2, hs0, hs1, hs2, hs3, hfr2⟩ :=
      store_ps_some (l := dp) (i := i)
        (add_ps add (add_ps add (mul_ps mul x1 xa) (mul_ps mul y1 ya))
          (add_ps add (mul_ps mul z1 za) (mul_ps mul w1 wa))) (by omega)
    obtain ⟨r, hr, hrlen, hrfr, hrval⟩ :=
      ih (i+4) dp2 (by omega) (by omega) (by omega) (by omega) (by omega)
    have hstep : dotBlocks add mul x y z w x1 y1 z1 w1 dp i (b+1) =
        dotBlocks add mul x y z w x1 y1 z1 w1 dp2 (i+4) b := by
      simp [dotBlocks, hxa, hya, hza, hwa, hdp2]
    refine ⟨r, hstep.trans hr, by rw [hrlen, hlen2], ?_, ?_⟩
    · intro j hj
      exact (hrfr j (by omega)).trans (hfr2 j (by omega))
    · intro j hj1 hj2 xv yv zv wv hxv hyv hzv hwv
      by_cases hcase : j < i + 4
      · have hrj : r[j]? = dp2[j]? := hrfr j (by omega)
        have hj4 : j = i ∨ j = i + 1 ∨ j = i + 2 ∨ j = i + 3 := by omega
        rcases hj4 with hj4 | hj4 | hj4 | hj4 <;> subst hj4
        · rw [hxa0] at hxv
          rw [hya0] at hyv
          rw [hza0] at hzv
          rw [hwa0] at hwv
          obtain rfl : xv = xa.l0 := (Option.some.inj hxv).symm
          obtain rfl : yv = ya.l0 := (Option.some.inj hyv).symm
          obtain rfl : zv = za.l0 := (Option.some.inj hzv).symm
          obtain rfl : wv = wa.l0 := (Option.some.inj hwv).symm
          rw [hrj, hs0, Option.some.injEq]
          simp [M128.lane, add_ps, mul_ps]
        · rw [hxa1] at hxv
          rw [hya1] at hyv
          rw [hza1] at hzv
          rw [hwa1] at hwv
          obtain rfl : xv = xa.l1 := (Option.some.inj hxv).symm
          obtain rfl : yv = ya.l1 := (Option.some.inj hyv).symm
          obtain rfl : zv = za.l1 := (Option.some.inj hzv).symm
          obtain rfl : wv = wa.l1 := (Option.some.inj hwv).symm
          rw [hrj, hs1, Option.some.injEq]
          have ht : i + 1 - i = 1 := by omega
          simp [ht, M128.lane, add_ps, mul_ps]
        · rw [hxa2] at hxv
          rw [hya2] at hyv
          rw [hza2] at hzv
          rw [hwa2] at hwv
          obtain rfl : xv = xa.l2 := (Option.some.inj hxv).symm
          obtain rfl : yv = ya.l2 := (Option.some.inj hyv).symm
          obtain rfl : zv = za.l2 := (Option.some.inj hzv).symm
          obtain rfl : wv = wa.l2 := (Option.some.inj hwv).symm
          rw [hrj, hs2, Option.some.injEq]
          have ht : i + 2 - i = 2 := by omega
          simp [ht, M128.lane, add_ps, mul_ps]
        · rw [hxa3] at hxv
          rw [hya3] at hyv
          rw [hza3] at hzv
          rw [hwa3] at hwv
          obtain rfl : xv = xa.l3 := (Option.some.inj hxv).symm
          obtain rfl : yv = ya.l3 := (Option.some.inj hyv).symm
          obtain rfl : zv = za.l3 := (Option.some.inj hzv).symm
          obtain rfl : wv = wa.l3 := (Option.some.inj hwv).symm
          rw [hrj, hs3, Option.some.injEq]
          have ht : i + 3 - i = 3 := by omega
          simp [ht, M128.lane, add_ps, mul_ps]
      · have hv := hrval j (by omega) (by omega) xv yv zv wv hxv hyv hzv hwv
        rw [hv, Option.some.injEq]
        have hlx : x1.lane (j - (i+4)) = x1.lane (j - i) := M128.lane_congr x1 (by omega)
        have hly : y1.lane (j - (i+4)) = y1.lane (j - i) := M128.lane_congr y1 (by omega)
        have hlz : z1.lane (j - (i+4)) = z1.lane (j - i) := M128.lane_congr z1 (by omega)
        have hlw : w1.lane (j - (i+4)) = w1.lane (j - i) := M128.lane_congr w1 (by omega)
        rw [hlx, hly, hlz, hlw]

/-- Full characterisation of the batched dot-product kernel `dotKernel`
(broadcast of element 0, then the loop) for `n` a multiple of 4 within all
five buffers: the kernel succeeds, keeps the result-buffer length, leaves
`dp` unchanged beyond index `n`, and stores at every `j < n` the pairwise
dot product of the reference vector against vector `j`. -/
theorem dotKernel_spec {α : Type} (add mul : α → α → α) (n : ℕ) (x y z w dp : List α)
    (hn : n % 4 = 0)
    (hx : n ≤ x.length) (hy : n ≤ y.length) (hz : n ≤ z.length) (hw : n ≤ w.length)
    (hdp : n ≤ dp.length)
    (x0 y0 z0 w0 : α)
    (hx0 : x[0]? = some x0) (hy0 : y[0]? = some y0) (hz0 : z[0]? = some z0)
    (hw0 : w[0]? = some w0) :
    ∃ r, dotKernel add mul n x y z w dp = some r ∧
      r.length = dp.length ∧
      (∀ j, n ≤ j → r[j]? = dp[j]?) ∧
      (∀ j, j < n → ∀ xv yv zv wv,
        x[j]? = some xv → y[j]? = some yv → z[j]? = some zv → w[j]? = some wv →
        r[j]? = some (add (add (mul x0 xv) (mul y0 yv))
          (add (mul z0 zv) (mul w0 wv)))) := by
  have hb : 4 * ((n + 3) / 4) = n := by omega
  obtain ⟨r, hr, hrlen, hrfr, hrval⟩ :=
    dotBlocks_spec add mul x y z w ⟨x0, x0, x0, x0⟩ ⟨y0, y0, y0, y0⟩
      ⟨z0, z0, z0, z0⟩ ⟨w0, w0, w0, w0⟩ ((n + 3) / 4) 0 dp
      (by omega) (by omega) (by omega) (by omega) (by omega)
  refine ⟨r, ?_, hrlen, ?_, ?_⟩
  · simp [dotKernel, load1_ps, hx0, hy0, hz0, hw0]
    exact hr
  · intro j hj
    exact hrfr j (Or.inr (by omega))
  · intro j hj xv yv zv wv hxv hyv hzv hwv
    have hv := hrval j (by omega) (by omega) xv yv zv wv hxv hyv hzv hwv
    rw [hv, Option.some.injEq]
    rw [M128.lane_broadcast, M128.lane_broadcast, M128.lane_broadcast,
      M128.lane_broadcast]

/-!
## The claims
-/

theorem getElem?_eq_some_getD (l : List α) (d : α) {i : ℕ} (h : i < l.length) :
    l[i]? = some (l.getD i d) := by
  rw [List.getD_eq_getElem?_getD, List.getElem?_eq_getElem h]
  rfl

theorem isSome_eq_some_getD {α : Type} {o : Option α} (d : α) (h : o.isSome = true) :
    o = some (o.getD d) := by
  cases o with
  | none => simp at h
  | some a => rfl

/-- C1: the batched dot-product kernel, run on the program's four coordinate
arrays of length 64 (reference vector = element 0 of each array), yields
`result[i] = first[0]*first[i] + second[0]*second[i] + third[0]*third[i] +
fourth[0]*fourth[i]` (exact arithmetic on the stored binary32 values) for
every `i < 64`, including `i = 0`; the initial contents of the 64-entry
result buffer are irrelevant. -/
theorem dot_run_contract (dp : List ℚ) (h : dp.length = 64) :
    ∃ r, dotKernel fadd fmul 64 progX progY progZ progW dp = some r ∧
      ∀ i, i < 64 →
        r[i]? = some (progX.getD 0 0 * progX.getD i 0 + progY.getD 0 0 * progY.getD i 0 +
          progZ.getD 0 0 * progZ.getD i 0 + progW.getD 0 0 * progW.getD i 0) := by
  have hlx : progX.length = 64 := by simp [progX]
  have hly : progY.length = 64 := by simp [progY]
  have hlz : progZ.length = 64 := by simp [progZ]
  have hlw : progW.length = 64 := by simp [progW]
  have hgx : ∀ i, i < 64 → progX[i]? = some (progX.getD i 0) := fun i hi =>
    getElem?_eq_some_getD progX 0 (by omega)
  have hgy : ∀ i, i < 64 → progY[i]? = some (progY.getD i 0) := fun i hi =>
    getElem?_eq_some_getD progY 0 (by omega)
  have hgz : ∀ i, i < 64 → progZ[i]? = some (progZ.getD i 0) := fun i hi =>
    getElem?_eq_some_getD progZ 0 (by omega)
  have hgw : ∀ i, i < 64 → progW[i]? = some (progW.getD i 0) := fun i hi =>
    getElem?_eq_some_getD progW 0 (by omega)
  have h0x : progX.getD 0 0 = 1 := rfl
  have h0y : progY.getD 0 0 = 1 := rfl
  have h0z : progZ.getD 0 0 = 1 := rfl
  have h0w : progW.getD 0 0 = 1 := rfl
  have hrest : ∀ i, 0 < i → i < 64 → (1 :: List.replicate 63 q01).getD i 0 = q01 := by
    intro i h1 h2
    obtain ⟨j, rfl⟩ : ∃ j, i = j + 1 := ⟨i - 1, by omega⟩
    rw [List.getD_cons_succ, List.getD_eq_getElem?_getD,
      List.getElem?_replicate_of_lt (by omega)]
    rfl
  have hc1 : fadd (fadd (fmul 1 1) (fmul 1 1)) (fadd (fmul 1 1) (fmul 1 1)) =
      (1 : ℚ) * 1 + 1 * 1 + 1 * 1 + 1 * 1 := by
    with_unfolding_all decide
  have hcq : fadd (fadd (fmul 1 q01) (fmul 1 q01)) (fadd (fmul 1 q01) (fmul 1 q01)) =
      1 * q01 + 1 * q01 + 1 * q01 + 1 * q01 :=
    le_antisymm (by with_unfolding_all decide) (by with_unfolding_all decide)
  obtain ⟨r, hr, _, _, hval⟩ :=
    dotKernel_spec fadd fmul 64 progX progY progZ progW dp (by decide)
      (by omega) (by omega) (by omega) (by omega) (by omega)
      (progX.getD 0 0) (progY.getD 0 0) (progZ.getD 0 0) (progW.getD 0 0)
      (hgx 0 (by omega)) (hgy 0 (by omega)) (hgz 0 (by omega)) (hgw 0 (by omega))
  refine ⟨r, hr, ?_⟩
  intro i hi
  rw [hval i hi _ _ _ _ (hgx i hi) (hgy i hi) (hgz i hi) (hgw i hi),
    Option.some.injEq]
  by_cases h0 : i = 0
  · subst h0
    rw [h0x, h0y, h0z, h0w]
    exact hc1
  · rw [h0x, h0y, h0z, h0w,
      show progX.getD i 0 = q01 from hrest i (by omega) hi,
      show progY.getD i 0 = q01 from hrest i (by omega) hi,
      show progZ.getD i 0 = q01 from hrest i (by omega) hi,
      show progW.getD i 0 = q01 from hrest i (by omega) hi]
    exact hcq

/-- Witness for C1: the contract instantiated at the program's (zero-modelled)
freshly allocated result buffer. -/
theorem dot_run_contract_witness :
    ∃ r, dotKernel fadd fmul 64 progX progY progZ progW dp0 = some r ∧
      ∀ i, i < 64 →
        r[i]? = some (progX.getD 0 0 * progX.getD i 0 + progY.getD 0 0 * progY.getD i 0 +
          progZ.getD 0 0 * progZ.getD i 0 + progW.getD 0 0 * progW.getD i 0) :=
  dot_run_contract dp0 (by simp [dp0])

/-- C2: in every block iteration, each lane value stored by the loop is
`(x0*xi ⊕ y0*yi) ⊕ (z0*zi ⊕ w0*wi)` with exactly that association — proved
for arbitrary (non-associative) lane operations, which pins the reduction
tree; and the pairwise tree is not the naive left-to-right four-term fold:
the two differ on binary32 inputs `1, 2⁻²⁴, 2⁻²⁴, 2⁻²⁴`. -/
theorem dot_pairwise_tree :
    (∀ (α : Type) (add mul : α → α → α) (x y z w dp : List α)
      (x1 y1 z1 w1 : M128 α) (b i : ℕ),
      i + 4 * b ≤ x.length → i + 4 * b ≤ y.length → i + 4 * b ≤ z.length →
      i + 4 * b ≤ w.length → i + 4 * b ≤ dp.length →
      ∃ r, dotBlocks add mul x y z w x1 y1 z1 w1 dp i b = some r ∧
        ∀ j, i ≤ j → j < i + 4 * b →
          ∀ xv yv zv wv, x[j]? = some xv → y[j]? = some yv → z[j]? = some zv →
            w[j]? = some wv →
            r[j]? = some (add (add (mul (x1.lane (j - i)) xv) (mul (y1.lane (j - i)) yv))
              (add (mul (z1.lane (j - i)) zv) (mul (w1.lane (j - i)) wv)))) ∧
    fadd (fadd (fadd 1 (1/16777216)) (1/16777216)) (1/16777216) ≠
      fadd (fadd 1 (1/16777216)) (fadd (1/16777216) (1/16777216)) := by
  constructor
  · intro α add mul x y z w dp x1 y1 z1 w1 b i hx hy hz hw hdp
    obtain ⟨r, hr, _, _, hval⟩ :=
      dotBlocks_spec add mul x y z w x1 y1 z1 w1 b i dp hx hy hz hw hdp
    exact ⟨r, hr, hval⟩
  · with_unfolding_all decide

/-- Witness for C2: one block over concrete binary32 data, reference
broadcast `1`, vectors `(1,1,1,1), (2,2,2,2), (3,3,3,3), (4,4,4,4)`. -/
theorem dot_pairwise_tree_witness :
    ∃ r, dotBlocks fadd fmul [1, 2, 3, 4] [1, 2, 3, 4] [1, 2, 3, 4] [1, 2, 3, 4]
        ⟨1, 1, 1, 1⟩ ⟨1, 1, 1, 1⟩ ⟨1, 1, 1, 1⟩ ⟨1, 1, 1, 1⟩ [0, 0, 0, 0] 0 1 = some r ∧
      r[1]? = some (fadd (fadd (fmul ((M128.mk (1:ℚ) 1 1 1).lane 1) 2)
          (fmul ((M128.mk (1:ℚ) 1 1 1).lane 1) 2))
        (fadd (fmul ((M128.mk (1:ℚ) 1 1 1).lane 1) 2)
          (fmul ((M128.mk (1:ℚ) 1 1 1).lane 1) 2))) := by
  obtain ⟨r, hr, hval⟩ := dot_pairwise_tree.1 ℚ fadd fmul [1, 2, 3, 4] [1, 2, 3, 4]
    [1, 2, 3, 4] [1, 2, 3, 4] [0, 0, 0, 0] ⟨1, 1, 1, 1⟩ ⟨1, 1, 1, 1⟩ ⟨1, 1, 1, 1⟩
    ⟨1, 1, 1, 1⟩ 1 0 (by simp) (by simp) (by simp) (by simp) (by simp)
  exact ⟨r, hr, hval 1 (by omega) (by omega) 2 2 2 2 rfl rfl rfl rfl⟩

/-- C3: batching/block independence of the loop: running the loop (with the
broadcast registers fixed before it, as in the source) over the whole input
gives, block by block, exactly the same stored values as running it on each
4-element block slice in isolation. -/
theorem dot_loop_batching {α : Type} (add mul : α → α → α) (x y z w dp : List α)
    (x1 y1 z1 w1 : M128 α) (b : ℕ)
    (hx : 4 * b ≤ x.length) (hy : 4 * b ≤ y.length) (hz : 4 * b ≤ z.length)
    (hw : 4 * b ≤ w.length) (hdp : 4 * b ≤ dp.length) :
    ∃ R, dotBlocks add mul x y z w x1 y1 z1 w1 dp 0 b = some R ∧
      ∀ k, k < b →
        ∃ rk, dotBlocks add mul ((x.drop (4*k)).take 4) ((y.drop (4*k)).take 4)
            ((z.drop (4*k)).take 4) ((w.drop (4*k)).take 4) x1 y1 z1 w1
            ((dp.drop (4*k)).take 4) 0 1 = some rk ∧
          ∀ j, j < 4 → rk[j]? = R[4*k + j]? := by
  obtain ⟨R, hR, _, _, hRval⟩ :=
    dotBlocks_spec add mul x y z w x1 y1 z1 w1 b 0 dp
      (by omega) (by omega) (by omega) (by omega) (by omega)
  refine ⟨R, hR, ?_⟩
  intro k hk
  have hxl : ((x.drop (4*k)).take 4).length = 4 := by
    simp only [List.length_take, List.length_drop]
    omega
  have hyl : ((y.drop (4*k)).take 4).length = 4 := by
    simp only [List.length_take, List.length_drop]
    omega
  have hzl : ((z.drop (4*k)).take 4).length = 4 := by
    simp only [List.length_take, List.length_drop]
    omega
  have hwl : ((w.drop (4*k)).take 4).length = 4 := by
    simp only [List.length_take, List.length_drop]
    omega
  have hdl : ((dp.drop (4*k)).take 4).length = 4 := by
    simp only [List.length_take, List.length_drop]
    omega
  obtain ⟨rk, hrk, _, _, hrkval⟩ :=
    dotBlocks_spec add mul ((x.drop (4*k)).take 4) ((y.drop (4*k)).take 4)
      ((z.drop (4*k)).take 4) ((w.drop (4*k)).take 4) x1 y1 z1 w1 1 0
      ((dp.drop (4*k)).take 4)
      (by omega) (by omega) (by omega) (by omega) (by omega)
  refine ⟨rk, hrk, ?_⟩
  intro j hj
  have hsx : ((x.drop (4*k)).take 4)[j]? = x[4*k + j]? := by
    rw [List.getElem?_take_of_lt hj, getElem?_drop_add]
  have hsy : ((y.drop (4*k)).take 4)[j]? = y[4*k + j]? := by
    rw [List.getElem?_take_of_lt hj, getElem?_drop_add]
  have hsz : ((z.drop (4*k)).take 4)[j]? = z[4*k + j]? := by
    rw [List.getElem?_take_of_lt hj, getElem?_drop_add]
  have hsw : ((w.drop (4*k)).take 4)[j]? = w[4*k + j]? := by
    rw [List.getElem?_take_of_lt hj, getElem?_drop_add]
  obtain ⟨xv, hxv⟩ : ∃ v, x[4*k + j]? = some v := by
    rw [List.getElem?_eq_getElem (show 4*k + j < x.length by omega)]
    exact ⟨_, rfl⟩
  obtain ⟨yv, hyv⟩ : ∃ v, y[4*k + j]? = some v := by
    rw [List.getElem?_eq_getElem (show 4*k + j < y.length by omega)]
    exact ⟨_, rfl⟩
  obtain ⟨zv, hzv⟩ : ∃ v, z[4*k + j]? = some v := by
    rw [List.getElem?_eq_getElem (show 4*k + j < z.length by omega)]
    exact ⟨_, rfl⟩
  obtain ⟨wv, hwv⟩ : ∃ v, w[4*k + j]? = some v := by
    rw [List.getElem?_eq_getElem (show 4*k + j < w.length by omega)]
    exact ⟨_, rfl⟩
  have h1 := hrkval j (by omega) (by omega) xv yv zv wv
    (by rw [hsx]; exact hxv) (by rw [hsy]; exact hyv)
    (by rw [hsz]; exact hzv) (by rw [hsw]; exact hwv)
  have h2 := hRval (4*k + j) (by omega) (by omega) xv yv zv wv hxv hyv hzv hwv
  rw [h1, h2, Option.some.injEq]
  have hlx : x1.lane (4*k + j - 0) = x1.lane (j - 0) := M128.lane_congr x1 (by omega)
  have hly : y1.lane (4*k + j - 0) = y1.lane (j - 0) := M128.lane_congr y1 (by omega)
  have hlz : z1.lane (4*k + j - 0) = z1.lane (j - 0) := M128.lane_congr z1 (by omega)
  have hlw : w1.lane (4*k + j - 0) = w1.lane (j - 0) := M128.lane_congr w1 (by omega)
  rw [hlx, hly, hlz, hlw]

/-- Witness for C3: two blocks of concrete binary32 data. -/
theorem dot_loop_batching_witness :
    ∃ R, dotBlocks fadd fmul [1, 2, 3, 4, 5, 6, 7, 8] [1, 2, 3, 4, 5, 6, 7, 8]
        [1, 2, 3, 4, 5, 6, 7, 8] [1, 2, 3, 4, 5, 6, 7, 8]
        ⟨1, 1, 1, 1⟩ ⟨1, 1, 1, 1⟩ ⟨1, 1, 1, 1⟩ ⟨1, 1, 1, 1⟩
        [0, 0, 0, 0, 0, 0, 0, 0] 0 2 = some R ∧
      ∀ k, k < 2 →
        ∃ rk, dotBlocks fadd fmul
            (([(1:ℚ), 2, 3, 4, 5, 6, 7, 8].drop (4*k)).take 4)
            (([(1:ℚ), 2, 3, 4, 5, 6, 7, 8].drop (4*k)).take 4)
            (([(1:ℚ), 2, 3, 4, 5, 6, 7, 8].drop (4*k)).take 4)
            (([(1:ℚ), 2, 3, 4, 5, 6, 7, 8].drop (4*k)).take 4)
            ⟨1, 1, 1, 1⟩ ⟨1, 1, 1, 1⟩ ⟨1, 1, 1, 1⟩ ⟨1, 1, 1, 1⟩
            (([(0:ℚ), 0, 0, 0, 0, 0, 0, 0].drop (4*k)).take 4) 0 1 = some rk ∧
          ∀ j, j < 4 → rk[j]? = R[4*k + j]? :=
  dot_loop_batching fadd fmul [1, 2, 3, 4, 5, 6, 7, 8] [1, 2, 3, 4, 5, 6, 7, 8]
    [1, 2, 3, 4, 5, 6, 7, 8] [1, 2, 3, 4, 5, 6, 7, 8]
    [0, 0, 0, 0, 0, 0, 0, 0] ⟨1, 1, 1, 1⟩ ⟨1, 1, 1, 1⟩ ⟨1, 1, 1, 1⟩ ⟨1, 1, 1, 1⟩ 2
    (by simp) (by simp) (by simp) (by simp) (by simp)

/-- C4: for every `n` divisible by 4 with `n ≥ 4` and arbitrary lane
operations and inputs, `result[0]` is the squared magnitude of the
reference vector — the sum of the squares of its four components, taken in
the kernel's pairwise association. -/
theorem dot_result0_sq_mag {α : Type} (add mul : α → α → α) (n : ℕ)
    (x y z w dp : List α) (hn4 : n % 4 = 0) (hn : 4 ≤ n)
    (hx : n ≤ x.length) (hy : n ≤ y.length) (hz : n ≤ z.length) (hw : n ≤ w.length)
    (hdp : n ≤ dp.length) (x0 y0 z0 w0 : α)
    (hx0 : x[0]? = some x0) (hy0 : y[0]? = some y0) (hz0 : z[0]? = some z0)
    (hw0 : w[0]? = some w0) :
    ∃ r, dotKernel add mul n x y z w dp = some r ∧
      r[0]? = some (add (add (mul x0 x0) (mul y0 y0)) (add (mul z0 z0) (mul w0 w0))) := by
  obtain ⟨r, hr, _, _, hval⟩ :=
    dotKernel_spec add mul n x y z w dp hn4 hx hy hz hw hdp x0 y0 z0 w0 hx0 hy0 hz0 hw0
  exact ⟨r, hr, hval 0 (by omega) x0 y0 z0 w0 hx0 hy0 hz0 hw0⟩

/-- Witness for C4: one concrete binary32 block, reference vector
`(1, 2, 3, 4)`. -/
theorem dot_result0_sq_mag_witness :
    ∃ r, dotKernel fadd fmul 4 [1, 5, 5, 5] [2, 5, 5, 5] [3, 5, 5, 5] [4, 5, 5, 5]
        [0, 0, 0, 0] = some r ∧
      r[0]? = some (fadd (fadd (fmul 1 1) (fmul 2 2)) (fadd (fmul 3 3) (fmul 4 4))) :=
  dot_result0_sq_mag fadd fmul 4 [1, 5, 5, 5] [2, 5, 5, 5] [3, 5, 5, 5] [4, 5, 5, 5]
    [0, 0, 0, 0] (by decide) (by decide) (by simp) (by simp) (by simp) (by simp)
    (by simp) 1 2 3 4 rfl rfl rfl rfl

/-- C5: the kernel writes only to the result buffer: it succeeds returning a
buffer of unchanged length, every index `≥ n` of the result buffer keeps its
old value, the four input arrays are untouched (the embedding returns only
a new result buffer), and the stored values depend only on the inputs — two
runs over result buffers with different initial contents store identical
values on `[0, n)`, so no stale or initial result-buffer value is ever
read. -/
theorem dot_kernel_frame {α : Type} (add mul : α → α → α) (n : ℕ)
    (x y z w dp dpB : List α) (hn4 : n % 4 = 0) (hn : 4 ≤ n)
    (hx : n ≤ x.length) (hy : n ≤ y.length) (hz : n ≤ z.length) (hw : n ≤ w.length)
    (hdp : n ≤ dp.length) (hdpB : n ≤ dpB.length) :
    ∃ r rB, dotKernel add mul n x y z w dp = some r ∧
      dotKernel add mul n x y z w dpB = some rB ∧
      r.length = dp.length ∧
      (∀ j, n ≤ j → r[j]? = dp[j]?) ∧
      (∀ j, j < n → r[j]? = rB[j]?) := by
  obtain ⟨x0, hx0⟩ : ∃ v, x[0]? = some v := by
    rw [List.getElem?_eq_getElem (show 0 < x.length by omega)]
    exact ⟨_, rfl⟩
  obtain ⟨y0, hy0⟩ : ∃ v, y[0]? = some v := by
    rw [List.getElem?_eq_getElem (show 0 < y.length by omega)]
    exact ⟨_, rfl⟩
  obtain ⟨z0, hz0⟩ : ∃ v, z[0]? = some v := by
    rw [List.getElem?_eq_getElem (show 0 < z.length by omega)]
    exact ⟨_, rfl⟩
  obtain ⟨w0, hw0⟩ : ∃ v, w[0]? = some v := by
    rw [List.getElem?_eq_getElem (show 0 < w.length by omega)]
    exact ⟨_, rfl⟩
  obtain ⟨r, hr, hrlen, hrfr, hrval⟩ :=
    dotKernel_spec add mul n x y z w dp hn4 hx hy hz hw hdp x0 y0 z0 w0
      hx0 hy0 hz0 hw0
  obtain ⟨rB, hrB, _, _, hrBval⟩ :=
    dotKernel_spec add mul n x y z w dpB hn4 hx hy hz hw hdpB x0 y0 z0 w0
      hx0 hy0 hz0 hw0
  refine ⟨r, rB, hr, hrB, hrlen, hrfr, ?_⟩
  intro j hj
  obtain ⟨xv, hxv⟩ : ∃ v, x[j]? = some v := by
    rw [List.getElem?_eq_getElem (show j < x.length by omega)]
    exact ⟨_, rfl⟩
  obtain ⟨yv, hyv⟩ : ∃ v, y[j]? = some v := by
    rw [List.getElem?_eq_getElem (show j < y.length by omega)]
    exact ⟨_, rfl⟩
  obtain ⟨zv, hzv⟩ : ∃ v, z[j]? = some v := by
    rw [List.getElem?_eq_getElem (show j < z.length by omega)]
    exact ⟨_, rfl⟩
  obtain ⟨wv, hwv⟩ : ∃ v, w[j]? = some v := by
    rw [List.getElem?_eq_getElem (show j < w.length by omega)]
    exact ⟨_, rfl⟩
  rw [hrval j hj xv yv zv wv hxv hyv hzv hwv,
    hrBval j hj xv yv zv wv hxv hyv hzv hwv]

/-- Witness for C5: one concrete binary32 block, a result buffer with an
extra fifth cell (kept untouched) and a second run over a differently
initialised buffer. -/
theorem dot_kernel_frame_witness :
    ∃ r rB, dotKernel fadd fmul 4 [1, 2, 3, 4] [1, 2, 3, 4] [1, 2, 3, 4] [1, 2, 3, 4]
        [0, 0, 0, 0, 9] = some r ∧
      dotKernel fadd fmul 4 [1, 2, 3, 4] [1, 2, 3, 4] [1, 2, 3, 4] [1, 2, 3, 4]
        [7, 7, 7, 7] = some rB ∧
      r.length = ([0, 0, 0, 0, 9] : List ℚ).length ∧
      (∀ j, 4 ≤ j → r[j]? = (([0, 0, 0, 0, 9] : List ℚ))[j]?) ∧
      (∀ j, j < 4 → r[j]? = rB[j]?) :=
  dot_kernel_frame fadd fmul 4 [1, 2, 3, 4] [1, 2, 3, 4] [1, 2, 3, 4] [1, 2, 3, 4]
    [0, 0, 0, 0, 9] [7, 7, 7, 7] (by decide) (by decide) (by simp) (by simp)
    (by simp) (by simp) (by simp) (by simp)

/-- C6: in the concrete scenario the program sets up — reference vector
`(1,1,1,1)`, every other vector `(0.1f, 0.1f, 0.1f, 0.1f)` — the kernel
produces `result[0] = 4.0` exactly and `result[i]` within `10⁻⁶` of `0.4`
for every `0 < i < 64`. -/
theorem dot_concrete_scenario :
    dotKernel fadd fmul 64 progX progY progZ progW dp0 = some progDot ∧
    progDot.getD 0 0 = 4 ∧
    ∀ i, i < 64 → 0 < i → |progDot.getD i 0 - 2/5| < 1/1000000 := by
  refine ⟨isSome_eq_some_getD [] (by with_unfolding_all decide), ?_, ?_⟩
  · with_unfolding_all decide
  · with_unfolding_all decide

/-- Witness for C6 at `i = 1`. -/
theorem dot_concrete_scenario_witness :
    |progDot.getD 1 0 - 2/5| < 1/1000000 :=
  dot_concrete_scenario.2.2 1 (by omega) (by omega)

/-- C7: reference-vector identity — if every element of each coordinate
array equals that array's element 0 (all vectors identical to the
reference), every result element equals the reference's squared magnitude
(in the kernel's pairwise association). -/
theorem dot_reference_identity {α : Type} (add mul : α → α → α) (n : ℕ)
    (x y z w dp : List α) (hn4 : n % 4 = 0)
    (hx : n ≤ x.length) (hy : n ≤ y.length) (hz : n ≤ z.length) (hw : n ≤ w.length)
    (hdp : n ≤ dp.length)
    (x0 y0 z0 w0 : α)
    (hx0 : x[0]? = some x0) (hy0 : y[0]? = some y0) (hz0 : z[0]? = some z0)
    (hw0 : w[0]? = some w0)
    (hxc : ∀ i, i < x.length → x[i]? = x[0]?)
    (hyc : ∀ i, i < y.length → y[i]? = y[0]?)
    (hzc : ∀ i, i < z.length → z[i]? = z[0]?)
    (hwc : ∀ i, i < w.length → w[i]? = w[0]?) :
    ∃ r, dotKernel add mul n x y z w dp = some r ∧
      ∀ i, i < n →
        r[i]? = some (add (add (mul x0 x0) (mul y0 y0))
          (add (mul z0 z0) (mul w0 w0))) := by
  obtain ⟨r, hr, _, _, hval⟩ :=
    dotKernel_spec add mul n x y z w dp hn4 hx hy hz hw hdp x0 y0 z0 w0
      hx0 hy0 hz0 hw0
  refine ⟨r, hr, ?_⟩
  intro i hi
  exact hval i hi x0 y0 z0 w0 ((hxc i (by omega)).trans hx0)
    ((hyc i (by omega)).trans hy0) ((hzc i (by omega)).trans hz0)
    ((hwc i (by omega)).trans hw0)

/-- Witness for C7: all vectors equal to the reference `(3, 5, 7, 9)`. -/
theorem dot_reference_identity_witness :
    ∃ r, dotKernel fadd fmul 4 [3, 3, 3, 3] [5, 5, 5, 5] [7, 7, 7, 7] [9, 9, 9, 9]
        [0, 0, 0, 0] = some r ∧
      ∀ i, i < 4 →
        r[i]? = some (fadd (fadd (fmul 3 3) (fmul 5 5)) (fadd (fmul 7 7) (fmul 9 9))) :=
  dot_reference_identity fadd fmul 4 [3, 3, 3, 3] [5, 5, 5, 5] [7, 7, 7, 7]
    [9, 9, 9, 9] [0, 0, 0, 0] (by decide) (by simp) (by simp) (by simp) (by simp)
    (by simp) 3 5 7 9 rfl rfl rfl rfl
    (by with_unfolding_all decide) (by with_unfolding_all decide)
    (by with_unfolding_all decide) (by with_unfolding_all decide)

/-- C8 counterexample: the warm-up loop's result at `i = 1` is the binary32
value `1 + 0.1f = 9227469/2²³`, which is not `1 * 1.1`: the claimed exact
equality `results[i] = i * 1.1` fails at `i = 1`. -/
theorem warm_add_exact_fails :
    warmResults = some warmRes ∧ warmRes.getD 1 0 ≠ 1 * (11/10) := by
  refine ⟨isSome_eq_some_getD [] (by with_unfolding_all decide), ?_⟩
  with_unfolding_all decide

/-- C8 (amended): the warm-up loop computes `results[i] = i + i*0.1f` in
binary32, which is within `10⁻⁶` of `i * 1.1` for every `i < 8` and equals
it exactly in the exactly-representable cases `i = 0` and `i = 5`. -/
theorem warm_add_tolerance :
    warmResults = some warmRes ∧
    (∀ i, i < 8 → |warmRes.getD i 0 - (i : ℚ) * (11/10)| < 1/1000000) ∧
    warmRes.getD 0 0 = (0 : ℚ) * (11/10) ∧
    warmRes.getD 5 0 = (5 : ℚ) * (11/10) := by
  refine ⟨isSome_eq_some_getD [] (by with_unfolding_all decide), ?_, ?_, ?_⟩
  · with_unfolding_all decide
  · with_unfolding_all decide
  · with_unfolding_all decide

/-- Witness for C8 (amended) at `i = 3`. -/
theorem warm_add_tolerance_witness :
    |warmRes.getD 3 0 - ((3 : ℕ) : ℚ) * (11/10)| < 1/1000000 :=
  warm_add_tolerance.2.1 3 (by omega)

/-- C9: every memory access of the batched dot-product loop on the
program's 64-float allocations is in bounds — in the total embedding, where
any out-of-bounds load or store yields `none`, the kernel run returns
`some` result. -/
theorem dot_kernel_in_bounds :
    (dotKernel fadd fmul 64 progX progY progZ progW dp0).isSome = true := by
  with_unfolding_all decide

/-- C10: the array-of-structures demonstration — lane-wise multiplying
`(1,1,1,1)` by `(2,2,2,2)` and summing the lanes as
`(r0 + r1) + (r2 + r3)` — yields exactly `8.0`. -/
theorem aos_product_eight : aosProduct = some 8 := by
  with_unfolding_all decide

end SIMDIntro
